import Mathlib

/-!
# Verification of the pdf4vllm-mcp content-reconstruction pipeline

Shallow embedding of the core algorithms of the `pdf4vllm-mcp` repository:

* `src/content_orderer.py` — reading-order reconstruction (`order_content_blocks`);
* `src/table_converter.py` — merged-cell fill (`fill_merged_cells`);
* `src/text_validator.py` — corruption heuristics (`is_text_corrupted`,
  the decision part of `check_pdf_corruption_with_pdfminer`);
* `src/validators.py` — request validation (`validate_pdf_read_request`,
  `calculate_suggested_ranges`);
* `src/pdf_tools.py` — the per-page pipeline and the `read_pdf` handler
  (`read_pdf_handler`, `validate_path_security`).

Python floats that only ever hold exact small decimals (vertical positions,
corruption ratios, thresholds) are modelled as rationals `ℚ`; machine
integers are `Nat` (all quantities involved are non-negative counts and
1-indexed page numbers).  File-system and PDF-library effects are modelled
as oracle inputs (a `DocModel` of per-page extraction results, boolean
path/permission facts, a per-page pdfminer warning count).
-/

namespace Pdf4Vllm

/-- Content-fragment type tags, in the tagging order of
`order_content_blocks` (`src/content_orderer.py`). -/
inductive BType where
  | text
  | table
  | image
deriving DecidableEq, Repr

/-- A positioned content fragment as produced by the extraction
collaborators: a vertical coordinate `top` plus a string payload
(raw text, table markdown, or an image placeholder). -/
structure Fragment where
  top : ℚ
  payload : String
deriving DecidableEq, Repr

/-- A tagged content block as built inside `order_content_blocks`
(`src/content_orderer.py` lines 24-51); the final loop merely renames the
`top` key to `position`, so we carry a single `position` field throughout. -/
structure ContentBlock where
  btype : BType
  position : ℚ
  content : String
deriving DecidableEq, Repr

/-- The comparison key of `all_blocks.sort(key=lambda x: x['top'])`. -/
def blockLe (a b : ContentBlock) : Prop := a.position ≤ b.position

instance : DecidableRel blockLe := fun a b =>
  inferInstanceAs (Decidable (a.position ≤ b.position))

instance : IsTotal ContentBlock blockLe := ⟨fun a b => le_total a.position b.position⟩

instance : IsTrans ContentBlock blockLe := ⟨fun _ _ _ h h' => le_trans h h'⟩

/-- The concatenated, type-tagged block list built by the three loops of
`order_content_blocks` before sorting: text regions first, then tables,
then images, each in input order. -/
def all_blocks (texts tables images : List Fragment) : List ContentBlock :=
  texts.map (fun f => ⟨.text, f.top, f.payload⟩)
    ++ tables.map (fun f => ⟨.table, f.top, f.payload⟩)
    ++ images.map (fun f => ⟨.image, f.top, f.payload⟩)

/-- `order_content_blocks` (`src/content_orderer.py`): tag the three input
lists, concatenate, and sort by the `top` coordinate.  Python `list.sort`
is a stable sort; it is modelled by insertion sort with `≤` on the key,
which is the (unique) stable sort for that key. -/
def order_content_blocks (texts tables images : List Fragment) : List ContentBlock :=
  (all_blocks texts tables images).insertionSort blockLe

/-- `merge_adjacent_text_blocks` (`src/content_orderer.py`): explicitly a
pass-through. -/
def merge_adjacent_text_blocks (blocks : List ContentBlock) : List ContentBlock :=
  blocks

/-- Inserting an element into a list keeps, at every fixed key value `v`,
the subsequence of elements whose key is `v` in the order "inserted element
first if its key is `v`, then the old ones" — the stability kernel of
insertion sort.  Holds because `orderedInsert` places `a` before the first
element `b` with `a.position ≤ b.position`, hence before every element of
equal key. -/
theorem filter_key_orderedInsert (v : ℚ) (a : ContentBlock) (l : List ContentBlock) :
    (l.orderedInsert blockLe a).filter (fun x => decide (x.position = v)) =
      (a :: l).filter (fun x => decide (x.position = v)) := by
  induction l with
  | nil => rfl
  | cons b t ih =>
    by_cases hab : blockLe a b
    · simp [List.orderedInsert, hab]
    · have hne : ¬(a.position = v ∧ b.position = v) := by
        rintro ⟨h1, h2⟩
        exact hab (le_of_eq (h1.trans h2.symm))
      simp only [List.orderedInsert, if_neg hab]
      by_cases ha : a.position = v
      · have hb : ¬ b.position = v := fun hb => hne ⟨ha, hb⟩
        simp [List.filter, hb, ih, ha]
      · by_cases hb : b.position = v
        · simp [List.filter, hb, ih, ha]
        · simp [List.filter, hb, ih, ha]

/-- Insertion sort by key preserves, for every key value `v`, the exact
subsequence of elements carrying that key. -/
theorem filter_key_insertionSort (v : ℚ) (l : List ContentBlock) :
    (l.insertionSort blockLe).filter (fun x => decide (x.position = v)) =
      l.filter (fun x => decide (x.position = v)) := by
  induction l with
  | nil => rfl
  | cons a t ih =>
    simp only [List.insertionSort]
    rw [filter_key_orderedInsert]
    simp [List.filter, ih]

end Pdf4Vllm

namespace Pdf4Vllm

/-- C3: for any three input lists of text, table and image fragments, the
output of `order_content_blocks` is sorted by ascending vertical position,
and at every fixed vertical position the output subsequence equals the
input-encounter-order subsequence of the tagged concatenation (text
fragments first, then tables, then images, each sub-list in original
order) — i.e. the sort is stable with ties resolved in
text → table → image insertion order. -/
theorem ordering_sorted_and_stable (texts tables images : List Fragment) :
    List.Sorted blockLe (order_content_blocks texts tables images) ∧
      ∀ v : ℚ,
        (order_content_blocks texts tables images).filter
            (fun x => decide (x.position = v)) =
          (all_blocks texts tables images).filter (fun x => decide (x.position = v)) := by
  constructor
  · exact List.sorted_insertionSort blockLe _
  · intro v
    exact filter_key_insertionSort v _

/-- C10: `order_content_blocks` neither drops, duplicates, nor mutates
content: its output is a permutation of the tagged input concatenation
(so every output block is exactly the `⟨tag, top, payload⟩` of one input
fragment, with the tag of the list it came from), and its length is the
sum of the three input lengths. -/
theorem ordering_preserves_content (texts tables images : List Fragment) :
    (order_content_blocks texts tables images).Perm (all_blocks texts tables images) ∧
      (order_content_blocks texts tables images).length =
        texts.length + tables.length + images.length := by
  refine ⟨List.perm_insertionSort blockLe _, ?_⟩
  have h := (List.perm_insertionSort blockLe (all_blocks texts tables images)).length_eq
  simp only [order_content_blocks, all_blocks, List.length_append, List.length_map] at h ⊢
  omega

end Pdf4Vllm

namespace Pdf4Vllm

/-! ## Table converter (`src/table_converter.py`) -/

/-- A table cell as produced by `pdfplumber.extract_tables`: a string or
`None`. -/
abbrev Cell := Option String

/-- A raw table: a list of rows of optional cell strings. -/
abbrev Table := List (List Cell)

/-- The whitespace set of Python's `str.strip()` (ASCII whitespace,
field/group/record/unit separators, NEL, NBSP and the Unicode space
characters). -/
def isPySpace (c : Char) : Bool :=
  c.toNat = 32 || (9 ≤ c.toNat && c.toNat ≤ 13) ||
  (28 ≤ c.toNat && c.toNat ≤ 31) || c.toNat = 133 || c.toNat = 160 ||
  c.toNat = 0x1680 || (0x2000 ≤ c.toNat && c.toNat ≤ 0x200a) ||
  c.toNat = 0x2028 || c.toNat = 0x2029 || c.toNat = 0x202f ||
  c.toNat = 0x205f || c.toNat = 0x3000

/-- Python `s.strip()`: remove leading and trailing whitespace. -/
def pyStrip (s : String) : String :=
  ⟨((s.data.dropWhile isPySpace).reverse.dropWhile isPySpace).reverse⟩

/-- The emptiness test of `fill_merged_cells`
(`src/table_converter.py` line 35):
`cell is None or (isinstance(cell, str) and cell.strip() == '')`. -/
def isEmptyCell : Cell → Bool
  | none => true
  | some s => pyStrip s == ""

/-- One row of the per-column pass of `fill_merged_cells`: with `v` the
current `last_value`, either skip a too-short row, replace an empty cell
by `last_value or ''`, or record a non-empty cell as the new `last_value`.
Returns the updated row and the updated `last_value`. -/
def fillCell (c : Nat) (v : Cell) (r : List Cell) : List Cell × Cell :=
  match r[c]? with
  | none => (r, v)
  | some cell =>
    if isEmptyCell cell then (r.set c (some (v.getD "")), v) else (r, cell)

/-- The inner row loop of `fill_merged_cells` for one column `c`, threading
`last_value` through the rows top-to-bottom. -/
def fillColumnStep (c : Nat) (v : Cell) : Table → Table
  | [] => []
  | r :: rest => (fillCell c v r).1 :: fillColumnStep c (fillCell c v r).2 rest

/-- The outer column loop of `fill_merged_cells`: process the given column
indices in order, each with `last_value = None` initially. -/
def applyCols (cs : List Nat) (t : Table) : Table :=
  cs.foldl (fun t c => fillColumnStep c none t) t

/-- `fill_merged_cells` (`src/table_converter.py` lines 9-41): for each
column index of the *first* row, scan rows top-to-bottom and replace each
empty cell by the nearest non-empty value above it in that column (leading
empties get `''`).  Empty input is returned unchanged. -/
def fill_merged_cells (table : Table) : Table :=
  match table with
  | [] => table
  | r0 :: _ => applyCols (List.range r0.length) table

/-- Number of columns the fill pass processes: the first row's length. -/
def firstRowWidth : Table → Nat
  | [] => 0
  | r0 :: _ => r0.length

/-- The cell of table `t` at row `i`, column `j`, if both exist. -/
def cellAt (t : Table) (i j : Nat) : Option Cell :=
  match t[i]? with
  | none => none
  | some r => r[j]?

/-- The `last_value` state of the column-`c` scan after processing `rows`,
starting from `v`: the last non-empty cell value seen in column `c` (rows
shorter than `c+1` and empty cells do not change it). -/
def lastValAfter (c : Nat) (v : Cell) : Table → Cell
  | [] => v
  | r :: rest => lastValAfter c (fillCell c v r).2 rest

/-- The value a cell receives in the fill pass given the `last_value` `L`
above it: empty cells become `L or ''`, non-empty cells are unchanged. -/
def fillVal (L : Cell) (cell : Cell) : Cell :=
  if isEmptyCell cell then some (L.getD "") else cell

/-- A reachable `last_value`: `None`, or a non-empty cell value. -/
def GoodLast (v : Cell) : Prop := v = none ∨ isEmptyCell v = false

theorem fillCell_fst_length (c : Nat) (v : Cell) (r : List Cell) :
    (fillCell c v r).1.length = r.length := by
  unfold fillCell
  split
  · rfl
  · split <;> simp

theorem fillCell_fst_getElem_ne (c j : Nat) (hj : j ≠ c) (v : Cell) (r : List Cell) :
    (fillCell c v r).1[j]? = r[j]? := by
  unfold fillCell
  split
  · rfl
  · split
    · exact List.getElem?_set_ne (fun h => hj h.symm)
    · rfl

/-- `fillCell`'s updated `last_value` depends on the row only through its
entry at column `c`. -/
theorem fillCell_snd_eq (c : Nat) (v : Cell) (r : List Cell) :
    (fillCell c v r).2 =
      match r[c]? with
      | none => v
      | some cell => if isEmptyCell cell then v else cell := by
  unfold fillCell
  split
  · rfl
  · split <;> simp_all

theorem length_fillColumnStep (c : Nat) (v : Cell) (t : Table) :
    (fillColumnStep c v t).length = t.length := by
  induction t generalizing v with
  | nil => rfl
  | cons r rest ih => simp [fillColumnStep, ih]

theorem rowLens_fillColumnStep (c : Nat) (v : Cell) (t : Table) :
    (fillColumnStep c v t).map List.length = t.map List.length := by
  induction t generalizing v with
  | nil => rfl
  | cons r rest ih => simp [fillColumnStep, ih, fillCell_fst_length]

theorem cellAt_cons_zero (r : List Cell) (rest : Table) (j : Nat) :
    cellAt (r :: rest) 0 j = r[j]? := by
  simp [cellAt]

theorem cellAt_cons_succ (r : List Cell) (rest : Table) (i j : Nat) :
    cellAt (r :: rest) (i + 1) j = cellAt rest i j := by
  simp [cellAt]

theorem applyCols_nil (t : Table) : applyCols [] t = t := rfl

theorem applyCols_cons (c : Nat) (cs : List Nat) (t : Table) :
    applyCols (c :: cs) t = applyCols cs (fillColumnStep c none t) := rfl

theorem cellAt_fillColumnStep_ne (c j : Nat) (hj : j ≠ c) (v : Cell) (t : Table)
    (i : Nat) : cellAt (fillColumnStep c v t) i j = cellAt t i j := by
  induction t generalizing v i with
  | nil => rfl
  | cons r rest ih =>
    cases i with
    | zero =>
      simp only [fillColumnStep, cellAt_cons_zero]
      exact fillCell_fst_getElem_ne c j hj v r
    | succ i =>
      simp only [fillColumnStep, cellAt_cons_succ]
      exact ih _ _

/-- Characterization of one column pass: the cell at row `i` of column `c`
becomes `fillVal` of the `last_value` accumulated over the rows above it. -/
theorem cellAt_fillColumnStep_eq (c : Nat) (v : Cell) (t : Table) (i : Nat) :
    cellAt (fillColumnStep c v t) i c =
      (cellAt t i c).map (fillVal (lastValAfter c v (t.take i))) := by
  induction t generalizing v i with
  | nil => rfl
  | cons r rest ih =>
    cases i with
    | zero =>
      simp only [fillColumnStep, cellAt_cons_zero, List.take_zero, lastValAfter]
      unfold fillCell
      cases hr : r[c]? with
      | none => simp [hr]
      | some cell =>
        have hlt : c < r.length := by
          by_contra hge
          rw [List.getElem?_eq_none (by omega)] at hr
          exact Option.noConfusion hr
        by_cases he : isEmptyCell cell
        · simp only [hr, if_pos he]
          rw [List.getElem?_set_self']
          simp [hr, fillVal, he]
        · simp [hr, if_neg he, fillVal, he]
    | succ i =>
      simp only [fillColumnStep, cellAt_cons_succ, List.take_succ_cons, lastValAfter]
      exact ih _ _

theorem cellAt_applyCols_notMem (j : Nat) (cs : List Nat) (hj : j ∉ cs)
    (t : Table) (i : Nat) : cellAt (applyCols cs t) i j = cellAt t i j := by
  induction cs generalizing t with
  | nil => rfl
  | cons c cs' ih =>
    have hjc : j ≠ c := fun h => hj (h ▸ List.mem_cons_self c cs')
    have hjcs : j ∉ cs' := fun h => hj (List.mem_cons_of_mem c h)
    rw [applyCols_cons, ih hjcs]
    exact cellAt_fillColumnStep_ne c j hjc none t i

end Pdf4Vllm

namespace Pdf4Vllm

/-- A pass over a *different* column does not change the `last_value` scan
of column `c` (row lengths and column-`c` entries are untouched). -/
theorem lastValAfter_take_fillColumnStep_ne (c c' : Nat) (hcc : c' ≠ c) (t : Table) :
    ∀ (i : Nat) (v w : Cell),
      lastValAfter c w ((fillColumnStep c' v t).take i) = lastValAfter c w (t.take i) := by
  induction t with
  | nil => intro i v w; rfl
  | cons r rest ih =>
    intro i v w
    cases i with
    | zero => rfl
    | succ i =>
      simp only [fillColumnStep, List.take_succ_cons, lastValAfter]
      rw [ih i]
      have h2 : (fillCell c w (fillCell c' v r).1).2 = (fillCell c w r).2 := by
        rw [fillCell_snd_eq, fillCell_snd_eq,
          fillCell_fst_getElem_ne c' c (fun h => hcc h.symm) v r]
      rw [h2]

/-- Scanning the `last_value` of column `c` over the *filled* table gives
the same state as over the original: filled cells are exactly the previous
`last_value` (or an empty `''`), so they never change the scan. -/
theorem lastValAfter_take_fillColumnStep_eq (c : Nat) (t : Table) :
    ∀ (i : Nat) (v : Cell), GoodLast v →
      lastValAfter c v ((fillColumnStep c v t).take i) = lastValAfter c v (t.take i) := by
  induction t with
  | nil => intro i v _; rfl
  | cons r rest ih =>
    intro i v hv
    cases i with
    | zero => rfl
    | succ i =>
      simp only [fillColumnStep, List.take_succ_cons, lastValAfter]
      cases hr : r[c]? with
      | none =>
        have h1 : fillCell c v r = (r, v) := by simp [fillCell, hr]
        have hfst : (fillCell c v r).1 = r := by rw [h1]
        have hsnd : (fillCell c v r).2 = v := by rw [h1]
        rw [hfst, hsnd]
        exact ih i v hv
      | some cell =>
        by_cases he : isEmptyCell cell
        · have h1 : fillCell c v r = (r.set c (some (v.getD "")), v) := by
            simp [fillCell, hr, he]
          have hfst : (fillCell c v r).1 = r.set c (some (v.getD "")) := by rw [h1]
          have hsnd : (fillCell c v r).2 = v := by rw [h1]
          rw [hfst, hsnd]
          have hset : (r.set c (some (v.getD "")))[c]? = some (some (v.getD "")) := by
            rw [List.getElem?_set_self', hr]; rfl
          have h2 : (fillCell c v (r.set c (some (v.getD "")))).2 = v := by
            rw [fillCell_snd_eq, hset]
            rcases hv with hv | hv
            · subst hv
              simp only [Option.getD_none]
              rw [if_pos (by decide)]
            · cases v with
              | none => rfl
              | some s =>
                simp only [Option.getD_some]
                rw [if_neg (by simpa [isEmptyCell] using hv)]
          rw [h2]
          exact ih i v hv
        · have h1 : fillCell c v r = (r, cell) := by
            simp [fillCell, hr, he]
          have hfst : (fillCell c v r).1 = r := by rw [h1]
          have hsnd : (fillCell c v r).2 = cell := by rw [h1]
          rw [hfst, hsnd]
          exact ih i cell (Or.inr (by simpa using he))

/-- The whole fill pass leaves every column's `last_value` scan unchanged. -/
theorem lastValAfter_take_applyCols (j : Nat) (cs : List Nat) (t : Table) (i : Nat) :
    lastValAfter j none ((applyCols cs t).take i) = lastValAfter j none (t.take i) := by
  induction cs generalizing t with
  | nil => rfl
  | cons c cs' ih =>
    rw [applyCols_cons, ih]
    by_cases hc : c = j
    · subst hc
      exact lastValAfter_take_fillColumnStep_eq c t i none (Or.inl rfl)
    · exact lastValAfter_take_fillColumnStep_ne j c hc t i none none

/-- Characterization of `applyCols` on a processed column `j`: the cell at
row `i` becomes `fillVal` of the original column-`j` `last_value` above it. -/
theorem cellAt_applyCols_mem (j : Nat) (cs : List Nat) (hj : j ∈ cs) (hnd : cs.Nodup)
    (t : Table) (i : Nat) :
    cellAt (applyCols cs t) i j =
      (cellAt t i j).map (fillVal (lastValAfter j none (t.take i))) := by
  induction cs generalizing t with
  | nil => exact absurd hj (List.not_mem_nil j)
  | cons c cs' ih =>
    have hc : c ∉ cs' := (List.nodup_cons.mp hnd).1
    have hnd' : cs'.Nodup := (List.nodup_cons.mp hnd).2
    rw [applyCols_cons]
    by_cases hjc : j = c
    · subst hjc
      rw [cellAt_applyCols_notMem j cs' hc]
      exact cellAt_fillColumnStep_eq j none t i
    · have hj' : j ∈ cs' := by
        rcases List.mem_cons.mp hj with h | h
        · exact absurd h hjc
        · exact h
      rw [ih hj' hnd']
      rw [cellAt_fillColumnStep_ne c j hjc none t i]
      rw [lastValAfter_take_fillColumnStep_ne j c (fun h => hjc h.symm) t i]

theorem length_applyCols (cs : List Nat) (t : Table) :
    (applyCols cs t).length = t.length := by
  induction cs generalizing t with
  | nil => rfl
  | cons c cs' ih => rw [applyCols_cons, ih, length_fillColumnStep]

theorem rowLens_applyCols (cs : List Nat) (t : Table) :
    (applyCols cs t).map List.length = t.map List.length := by
  induction cs generalizing t with
  | nil => rfl
  | cons c cs' ih => rw [applyCols_cons, ih, rowLens_fillColumnStep]

theorem firstRowWidth_eq_of_rowLens {t1 t2 : Table}
    (h : t1.map List.length = t2.map List.length) :
    firstRowWidth t1 = firstRowWidth t2 := by
  cases t1 with
  | nil =>
    cases t2 with
    | nil => rfl
    | cons r2 rest2 => exact absurd h (by simp)
  | cons r1 rest1 =>
    cases t2 with
    | nil => exact absurd h (by simp)
    | cons r2 rest2 =>
      simp only [List.map_cons, List.cons.injEq] at h
      simpa [firstRowWidth] using h.1

/-- The `last_value` scan, started from a reachable state, stays reachable:
it is `None` or a non-empty cell value. -/
theorem lastValAfter_good (c : Nat) (rows : Table) :
    ∀ (v : Cell), GoodLast v → GoodLast (lastValAfter c v rows) := by
  induction rows with
  | nil => intro v hv; exact hv
  | cons r rest ih =>
    intro v hv
    simp only [lastValAfter]
    apply ih
    rw [fillCell_snd_eq]
    cases hr : r[c]? with
    | none => exact hv
    | some cell =>
      show GoodLast (if isEmptyCell cell = true then v else cell)
      by_cases he : isEmptyCell cell
      · rw [if_pos he]; exact hv
      · rw [if_neg he]; exact Or.inr (by simpa using he)

/-- Filling a cell twice with the same reachable `last_value` is the same
as filling it once. -/
theorem fillVal_idem {L : Cell} (hL : GoodLast L) (x : Cell) :
    fillVal L (fillVal L x) = fillVal L x := by
  by_cases hx : isEmptyCell x
  · rcases hL with hL | hL
    · subst hL
      have h1 : fillVal none x = some "" := by simp [fillVal, hx]
      rw [h1]
      have h2 : isEmptyCell (some "") = true := by decide
      simp [fillVal, h2]
    · cases L with
      | none => simp [isEmptyCell] at hL
      | some s =>
        have hs : isEmptyCell (some s) = false := hL
        have h1 : fillVal (some s) x = some s := by simp [fillVal, hx]
        rw [h1]
        simp [fillVal, hs]
  · simp [fillVal, hx]

/-- Per-cell description of `fill_merged_cells` on the processed columns
(those whose index is below the first row's width): an empty or absent
(`None`) cell is replaced by the nearest non-empty value above it in the
same column (an empty `''` when there is none), and non-empty cells are
unchanged. -/
theorem cellAt_fill_merged_cells (t : Table) (i j : Nat) (hj : j < firstRowWidth t) :
    cellAt (fill_merged_cells t) i j =
      (cellAt t i j).map (fillVal (lastValAfter j none (t.take i))) := by
  cases t with
  | nil => exact absurd hj (by simp [firstRowWidth])
  | cons r0 rest =>
    have hw : firstRowWidth (r0 :: rest) = r0.length := rfl
    rw [hw] at hj
    show cellAt (applyCols (List.range r0.length) (r0 :: rest)) i j = _
    exact cellAt_applyCols_mem j (List.range r0.length) (List.mem_range.mpr hj)
      (List.nodup_range r0.length) (r0 :: rest) i

/-- The merged-cell fill step is idempotent. -/
theorem fill_merged_cells_idem (t : Table) :
    fill_merged_cells (fill_merged_cells t) = fill_merged_cells t := by
  cases t with
  | nil => rfl
  | cons r0 rest =>
    set u := fill_merged_cells (r0 :: rest) with hu
    have hlens : u.map List.length = (r0 :: rest).map List.length := by
      rw [hu]
      exact rowLens_applyCols (List.range r0.length) (r0 :: rest)
    have hwidth : firstRowWidth u = r0.length := firstRowWidth_eq_of_rowLens hlens
    have hulen : u.length = rest.length + 1 := by
      have := congrArg List.length hlens
      simpa using this
    obtain ⟨r0', rest', hcons⟩ : ∃ r0' rest', u = r0' :: rest' := by
      cases hu2 : u with
      | nil => rw [hu2] at hulen; simp at hulen
      | cons a b => exact ⟨a, b, rfl⟩
    have hr0' : r0'.length = r0.length := by
      rw [hcons] at hwidth
      simpa [firstRowWidth] using hwidth
    have hfillu : fill_merged_cells u = applyCols (List.range r0.length) u := by
      rw [hcons]
      show applyCols (List.range r0'.length) (r0' :: rest') = _
      rw [hr0']
    rw [hfillu]
    apply List.ext_getElem?
    intro i
    cases hui : u[i]? with
    | none =>
      have hi : u.length ≤ i := by
        by_contra hlt
        rw [List.getElem?_eq_getElem (by omega)] at hui
        exact Option.noConfusion hui
      rw [List.getElem?_eq_none]
      rw [length_applyCols]
      exact hi
    | some r =>
      have hi : i < u.length := by
        by_contra hge
        rw [List.getElem?_eq_none (by omega)] at hui
        exact Option.noConfusion hui
      have hi2 : i < (applyCols (List.range r0.length) u).length := by
        rw [length_applyCols]; exact hi
      obtain ⟨r2, hr2⟩ : ∃ r2, (applyCols (List.range r0.length) u)[i]? = some r2 :=
        ⟨_, List.getElem?_eq_getElem hi2⟩
      rw [hr2]
      congr 1
      apply List.ext_getElem?
      intro jc
      have hcell1 : cellAt (applyCols (List.range r0.length) u) i jc = r2[jc]? := by
        unfold cellAt
        rw [hr2]
      have hcell2 : cellAt u i jc = r[jc]? := by
        unfold cellAt
        rw [hui]
      rw [← hcell1, ← hcell2]
      by_cases hjc : jc < r0.length
      · rw [cellAt_applyCols_mem jc (List.range r0.length) (List.mem_range.mpr hjc)
          (List.nodup_range r0.length) u i]
        have hlast : lastValAfter jc none (List.take i u) =
            lastValAfter jc none (List.take i (r0 :: rest)) := by
          rw [hu]
          exact lastValAfter_take_applyCols jc (List.range r0.length) (r0 :: rest) i
        rw [hlast]
        have hchar : cellAt u i jc =
            (cellAt (r0 :: rest) i jc).map
              (fillVal (lastValAfter jc none ((r0 :: rest).take i))) := by
          rw [hu]
          exact cellAt_fill_merged_cells (r0 :: rest) i jc (by simpa [firstRowWidth])
        rw [hchar]
        have hgood : GoodLast (lastValAfter jc none ((r0 :: rest).take i)) :=
          lastValAfter_good jc ((r0 :: rest).take i) none (Or.inl rfl)
        cases cellAt (r0 :: rest) i jc with
        | none => rfl
        | some x =>
          simp only [Option.map_some']
          rw [fillVal_idem hgood]
      · exact cellAt_applyCols_notMem jc (List.range r0.length)
          (fun h => hjc (List.mem_range.mp h)) u i

end Pdf4Vllm

namespace Pdf4Vllm

/-- A ragged table: the first row has one column, later rows have two.
`fill_merged_cells` only processes column indices below the first row's
length, so column 1 is never filled. -/
def raggedTable : Table := [[some "h"], [some "a", some "X"], [some "b", none]]

/-- C7 counterexample: the claim "in each fill pass, for *every* column,
each empty or absent cell is replaced by the nearest non-empty value above
it in the same column" is false as stated.  In `raggedTable`, the cell at
row 2, column 1 is absent (`None`) and has the non-empty value `"X"`
directly above it in column 1, yet `fill_merged_cells` leaves it `None`:
the column loop iterates only over `range(len(table[0]))`
(`src/table_converter.py` line 25), which excludes column 1 here. -/
theorem fill_claim_counterexample :
    cellAt raggedTable 2 1 = some none ∧
    isEmptyCell none = true ∧
    lastValAfter 1 none (raggedTable.take 2) = some "X" ∧
    cellAt (fill_merged_cells raggedTable) 2 1 = some none ∧
    cellAt (fill_merged_cells raggedTable) 2 1 ≠
      (cellAt raggedTable 2 1).map (fillVal (lastValAfter 1 none (raggedTable.take 2))) := by
  refine ⟨by decide, by decide, by decide, by decide, ?_⟩
  decide

/-- C7 (amended): applying the merged-cell fill step twice yields the same
result as applying it once, for every input table; and in each fill pass,
for every column index smaller than the first row's length (the columns the
pass processes — which is every column of a rectangular table), each empty
or absent cell is replaced by the nearest non-empty value above it in the
same column, and a column's leading empty cells remain empty (they receive
the empty string `''`). -/
theorem fill_merged_cells_spec (t : Table) :
    fill_merged_cells (fill_merged_cells t) = fill_merged_cells t ∧
    (∀ i j, j < firstRowWidth t →
      cellAt (fill_merged_cells t) i j =
        (cellAt t i j).map (fillVal (lastValAfter j none (t.take i)))) ∧
    (∀ i j, j < firstRowWidth t → lastValAfter j none (t.take i) = none →
      ∀ cell, cellAt t i j = some cell → isEmptyCell cell = true →
        cellAt (fill_merged_cells t) i j = some (some "") ∧
          isEmptyCell (some "") = true) := by
  refine ⟨fill_merged_cells_idem t, fun i j hj => cellAt_fill_merged_cells t i j hj, ?_⟩
  intro i j hj hnone cell hcell hempty
  refine ⟨?_, by decide⟩
  rw [cellAt_fill_merged_cells t i j hj, hcell, hnone]
  simp [fillVal, hempty]

/-- A small concrete table exercising the fill specification: a leading
empty cell in column 0 and a vertically-merged gap in column 1. -/
def fillWitnessTable : Table := [[none, some "B"], [some "A", none]]

/-- Witness for the amended C7 theorem at a concrete table, discharging its
hypotheses by evaluation. -/
theorem fill_merged_cells_spec_witness :
    fill_merged_cells (fill_merged_cells fillWitnessTable) = fill_merged_cells fillWitnessTable ∧
    cellAt (fill_merged_cells fillWitnessTable) 1 1 =
      (cellAt fillWitnessTable 1 1).map
        (fillVal (lastValAfter 1 none (fillWitnessTable.take 1))) ∧
    (cellAt (fill_merged_cells fillWitnessTable) 0 0 = some (some "") ∧
      isEmptyCell (some "") = true) :=
  ⟨(fill_merged_cells_spec fillWitnessTable).1,
   (fill_merged_cells_spec fillWitnessTable).2.1 1 1 (by decide),
   (fill_merged_cells_spec fillWitnessTable).2.2 0 0 (by decide) (by decide) none
     (by decide) (by decide)⟩

end Pdf4Vllm

namespace Pdf4Vllm

/-! ## Text corruption detection (`src/text_validator.py`) -/

/-- The `suspicious_ascii` set of `is_text_corrupted`
(`src/text_validator.py` line 118). -/
def isSuspiciousAscii (c : Char) : Bool :=
  c = '#' || c = '$' || c = '%' || c = '&' || c = '*' || c = '+' || c = '/' ||
  c = '<' || c = '=' || c = '>' || c = '@' || c = '\\' || c = '^' ||
  c = Char.ofNat 96 || c = '|' || c = '~'

/-- The character class of the "mixed special" regex
(`src/text_validator.py` line 110): the suspicious set plus quote and
parenthesis characters. -/
def isMixedSpecial (c : Char) : Bool :=
  isSuspiciousAscii c || c = Char.ofNat 39 || c = '"' || c = '(' || c = ')'

/-- The `known_corrupted_chars` set (`src/text_validator.py` lines 86-96),
transcribed in source order. -/
def knownCorruptedChars : List Char :=
  "‹ŒÙÚÛÜñûýÞÅÆÇÈÉÊËÎÏÑÒÓÔÕÖßàáâãäåæçèéêëìíîïðòóôõöøùúÝþÿ¡¢£¤¥¦§¨©ª«¬®¯°±²³´µ¶·¸¹º»¼½¾¿ÀÁÂÃÄ".data

/-- The `valid_chars` allow-list (`src/text_validator.py` line 116):
`.,!?()[]\x7b\x7d"'` plus newline, tab, space, `-`, `:`, `;`
(braces and the apostrophe written via their code points). -/
def isAllowedPunct (c : Char) : Bool :=
  c = '.' || c = ',' || c = '!' || c = '?' || c = '(' || c = ')' ||
  c = '[' || c = ']' || c = Char.ofNat 123 || c = Char.ofNat 125 ||
  c = '"' || c = Char.ofNat 39 || c = '\n' || c = '\t' || c = ' ' ||
  c = '-' || c = ':' || c = ';'

/-- Try to match the regex `\(cid:\d+\)` at the head of the character list;
on success return the remaining characters after the match. -/
def matchCid : List Char → Option (List Char)
  | '(' :: 'c' :: 'i' :: 'd' :: ':' :: rest =>
    if (rest.takeWhile Char.isDigit).isEmpty then none
    else
      match rest.dropWhile Char.isDigit with
      | ')' :: rest2 => some rest2
      | _ => none
  | _ => none

/-- Count the non-overlapping, left-to-right matches of `\(cid:\d+\)`
(the semantics of `re.findall` for this pattern).  The fuel argument is the
list length; every step consumes at least one character, so it never runs
out before the scan completes. -/
def countCidAux (S : Unit) : Nat → List Char → Nat
  | 0, _ => 0
  | _, [] => 0
  | fuel + 1, c :: rest =>
    match matchCid (c :: rest) with
    | some r => 1 + countCidAux S fuel r
    | none => countCidAux S fuel rest

/-- Number of `(cid:NNN)` occurrences in a character list. -/
def countCid (l : List Char) : Nat := countCidAux () l.length l

/-- Count maximal runs, of length at least `k`, of characters satisfying
`S` — the semantics of `re.findall` for the patterns `[S]{3,}` and
`(?:[S]+){5,}` of `is_text_corrupted`.  Fuel is the list length; every
step consumes at least one character. -/
def countRunsAux (S : Char → Bool) (k : Nat) : Nat → List Char → Nat
  | 0, _ => 0
  | _, [] => 0
  | fuel + 1, c :: rest =>
    if S c then
      (if k ≤ 1 + (rest.takeWhile S).length then 1 else 0) +
        countRunsAux S k fuel (rest.dropWhile S)
    else countRunsAux S k fuel rest

/-- Number of maximal runs of `S`-characters of length at least `k`. -/
def countRuns (S : Char → Bool) (k : Nat) (l : List Char) : Nat :=
  countRunsAux S k l.length l

/-- Per-character contribution to `corrupted_chars` in the ratio-fallback
loop of `is_text_corrupted` (`src/text_validator.py` lines 120-154):
suspicious ASCII symbols count; Hangul, CJK and non-corrupted Latin-1
letters do not; every other non-ASCII character outside the allow-list
counts. -/
def charCorruptionScore (c : Char) : Nat :=
  if c.toNat ≤ 127 then
    (if isSuspiciousAscii c then 1 else 0)
  else if 0xAC00 ≤ c.toNat && c.toNat ≤ 0xD7A3 then 0
  else if 0x1100 ≤ c.toNat && c.toNat ≤ 0x11FF then 0
  else if 0x3131 ≤ c.toNat && c.toNat ≤ 0x318E then 0
  else if 0x4E00 ≤ c.toNat && c.toNat ≤ 0x9FFF then 0
  else if 0xC0 ≤ c.toNat && c.toNat ≤ 0xFF then
    (if knownCorruptedChars.contains c then 1 else 0)
  else if isAllowedPunct c then 0
  else 1

/-- The configured default corruption threshold
(`corruption_threshold` in `src/config.py`): `0.3`. -/
def config_corruption_threshold : ℚ := 3 / 10

/-- `is_text_corrupted` (`src/text_validator.py` lines 51-162): returns
`(is_corrupted, corruption_ratio)` for a text sample.  Empty or
whitespace-only text is clean; the first 500 characters are sampled; then,
short-circuiting in order: more than 3 `(cid:NNN)` markers give ratio 1;
known mis-decoded characters above 5% give their frequency as ratio; 3+
runs (length ≥ 3) of suspicious ASCII give ratio 0.8; 2+ runs (length ≥ 5)
of the mixed special class give ratio 0.7; otherwise the suspicious
character ratio is computed and compared against `threshold`. -/
def is_text_corrupted (text : String) (threshold : ℚ) : Bool × ℚ :=
  if text.data.all isPySpace then (false, 0)
  else
    let sample := text.data.take 500
    let n := sample.length
    if n = 0 then (false, 0)
    else if 3 < countCid sample then (true, 1)
    else
      let kc := (sample.filter (fun c => knownCorruptedChars.contains c)).length
      if (n : ℚ) * (5 / 100) < (kc : ℚ) then (true, (kc : ℚ) / (n : ℚ))
      else if 3 ≤ countRuns isSuspiciousAscii 3 sample then (true, 8 / 10)
      else if 2 ≤ countRuns isMixedSpecial 5 sample then (true, 7 / 10)
      else
        let cc := (sample.map charCorruptionScore).sum
        (decide (threshold < (cc : ℚ) / (n : ℚ)), (cc : ℚ) / (n : ℚ))

/-- The page-level decision of `check_pdf_corruption_with_pdfminer`
(`src/text_validator.py` line 46): corrupted iff pdfminer emitted 3 or
more "Ignoring" warnings (the warning count itself is an oracle input, the
captured stderr of the external parser). -/
def pdfminer_corruption_decision (warningCount : Nat) : Bool := 3 ≤ warningCount

/-- Outcome of the orchestrator's per-page corruption check: the
classification, the ratio, and whether the character-level heuristic
`is_text_corrupted` was consulted. -/
structure CorruptionDecision where
  corrupted : Bool
  ratioQ : ℚ
  charHeuristicUsed : Bool
deriving DecidableEq, Repr

/-- The corruption-detection step of `read_pdf_handler` for a
text-extracting page (`src/pdf_tools.py` lines 363-379): the
parser-diagnostic check runs first; if it reports corruption the ratio is
`warning_count / 10` and the character heuristic is skipped; otherwise the
decision falls back to `is_text_corrupted` on the combined text. -/
def detect_page_corruption (warningCount : Nat) (textForCheck : String)
    (threshold : ℚ) : CorruptionDecision :=
  if pdfminer_corruption_decision warningCount then
    ⟨true, (warningCount : ℚ) / 10, false⟩
  else
    ⟨(is_text_corrupted textForCheck threshold).1,
     (is_text_corrupted textForCheck threshold).2, true⟩

end Pdf4Vllm

namespace Pdf4Vllm

/-- C6: for a fixed text sample the corruption ratio returned by
`is_text_corrupted` is the same for every threshold value, and the
corrupted classification is monotone in the threshold: if the sample is
classified clean at `t1 ≤ t2` it is classified clean at `t2` (only the
ratio-fallback stage consults the threshold, and it compares the
threshold against a threshold-independent ratio). -/
theorem corruption_threshold_spec (text : String) (t1 t2 : ℚ) :
    (is_text_corrupted text t1).2 = (is_text_corrupted text t2).2 ∧
      (t1 ≤ t2 → (is_text_corrupted text t1).1 = false →
        (is_text_corrupted text t2).1 = false) := by
  constructor
  · simp only [is_text_corrupted]
    split_ifs <;> rfl
  · intro hle
    simp only [is_text_corrupted]
    split_ifs <;> intro hfalse <;> try rfl
    all_goals try exact hfalse
    rw [decide_eq_false_iff_not] at hfalse ⊢
    intro hlt
    exact hfalse (lt_of_le_of_lt hle hlt)

/-- Witness for C6 at a concrete sample and thresholds. -/
theorem corruption_threshold_spec_witness :
    (is_text_corrupted "" 0).2 = (is_text_corrupted "" 1).2 ∧
      (is_text_corrupted "" 1).1 = false :=
  ⟨(corruption_threshold_spec "" 0 1).1,
   (corruption_threshold_spec "" 0 1).2 (by norm_num) (by decide)⟩

/-- C5: in the per-page corruption check of the orchestrator, 3 or more
pdfminer "Ignoring" warnings classify the page corrupted with ratio
`warningCount / 10` and the character-level heuristic is not consulted;
with fewer than 3 warnings the decision is exactly that of the
character-level heuristic, which is consulted. -/
theorem corruption_precedence_spec (warningCount : Nat) (textForCheck : String)
    (threshold : ℚ) :
    (3 ≤ warningCount →
      detect_page_corruption warningCount textForCheck threshold =
        ⟨true, (warningCount : ℚ) / 10, false⟩) ∧
      (warningCount < 3 →
        detect_page_corruption warningCount textForCheck threshold =
          ⟨(is_text_corrupted textForCheck threshold).1,
           (is_text_corrupted textForCheck threshold).2, true⟩) := by
  constructor
  · intro h
    simp [detect_page_corruption, pdfminer_corruption_decision, h]
  · intro h
    have h3 : ¬ (3 ≤ warningCount) := by omega
    simp [detect_page_corruption, pdfminer_corruption_decision, h3]

/-- Witness for C5: 5 warnings short-circuit with ratio 1/2; 1 warning
falls back to the character heuristic. -/
theorem corruption_precedence_spec_witness :
    detect_page_corruption 5 "sample" (3 / 10) = ⟨true, (5 : ℚ) / 10, false⟩ ∧
      detect_page_corruption 1 "sample" (3 / 10) =
        ⟨(is_text_corrupted "sample" (3 / 10)).1,
         (is_text_corrupted "sample" (3 / 10)).2, true⟩ :=
  ⟨(corruption_precedence_spec 5 "sample" (3 / 10)).1 (by decide),
   (corruption_precedence_spec 1 "sample" (3 / 10)).2 (by decide)⟩

end Pdf4Vllm

namespace Pdf4Vllm

/-! ## Per-page pipeline of `read_pdf_handler` (`src/pdf_tools.py`) -/

/-- The `extraction_mode` request field (`auto`, `text_only`,
`image_only`). -/
inductive ExtractionMode where
  | auto
  | text_only
  | image_only
deriving DecidableEq, Repr

/-- A `ContentBlock` of the output schema (`src/schemas.py`): type plus
content (image blocks carry the `[IMAGE_n]` placeholder string). -/
structure OutBlock where
  btype : BType
  content : String
deriving DecidableEq, Repr

/-- The regex `^-\s*\d+\s*-$` of the page-number-separator filter
(`src/pdf_tools.py` line 595). -/
def isPageNumSep (s : String) : Bool :=
  match s.data with
  | [] => false
  | c :: rest =>
    c = '-' &&
      (let r1 := rest.dropWhile isPySpace
       let ds := r1.takeWhile Char.isDigit
       let r2 := (r1.dropWhile Char.isDigit).dropWhile isPySpace
       !ds.isEmpty && r2 == ['-'])

/-- The `all_text_for_check` construction (`src/pdf_tools.py` lines
374-377): the page text, joined with the table markdowns when tables are
present. -/
def build_all_text_for_check (fullText : String) (tableMarkdowns : List String) : String :=
  if tableMarkdowns.isEmpty then fullText
  else if fullText = "" then String.intercalate "\n\n" tableMarkdowns
  else fullText ++ "\n\n" ++ String.intercalate "\n\n" tableMarkdowns

/-- The normal-mode block conversion of one ordered block
(`src/pdf_tools.py` lines 588-600): text blocks with non-empty content are
stripped and dropped when they are page-number separators such as `- 2 -`;
everything else is passed through. -/
def cleanupBlock (b : ContentBlock) : Option OutBlock :=
  if b.btype = BType.text ∧ b.content ≠ "" then
    (if isPageNumSep (pyStrip b.content) then none
     else some ⟨BType.text, pyStrip b.content⟩)
  else some ⟨b.btype, b.content⟩

/-- `should_include_image` (`src/pdf_tools.py` lines 387-391): render a
full page image always in `image_only` mode, in `auto` mode only when the
page's text is corrupted, never in `text_only` mode. -/
def should_include_page_image (mode : ExtractionMode) (textCorrupted : Bool) : Bool :=
  (mode == ExtractionMode.image_only) ||
    (mode == ExtractionMode.auto && textCorrupted)

/-- `should_skip_text_blocks` and the block-assembly loop
(`src/pdf_tools.py` lines 570-600): when the page is corrupted in `auto`
mode, or in `image_only` mode, keep only the image blocks of the ordered
sequence; otherwise convert every block through `cleanupBlock`. -/
def page_content_blocks (mode : ExtractionMode) (textCorrupted : Bool)
    (ordered : List ContentBlock) : List OutBlock :=
  if (mode == ExtractionMode.auto && textCorrupted) ||
      (mode == ExtractionMode.image_only) then
    (ordered.filter (fun b => b.btype == BType.image)).map
      (fun b => (⟨b.btype, b.content⟩ : OutBlock))
  else ordered.filterMap cleanupBlock

/-- Result of processing one page: the corruption flag and ratio, whether
a full-page image render was triggered, and the page's content blocks. -/
structure PageProcessResult where
  textCorrupted : Bool
  corruptionRatioQ : ℚ
  pageImageRendered : Bool
  contentBlocks : List OutBlock
deriving DecidableEq, Repr

/-- One iteration of the page loop of `read_pdf_handler`
(`src/pdf_tools.py` lines 287-612), over the extraction collaborators'
outputs for that page (text regions, positioned table markdowns, embedded
image placeholders, and the pdfminer warning count):

* `image_only` skips text/table extraction (empty lists, no corruption
  check);
* text-extracting modes run the corruption check
  (`detect_page_corruption`) on the combined text;
* a page image is rendered according to `should_include_page_image`;
* embedded images are kept only in `auto` mode
  (`skip_image_extraction`, lines 460-466);
* blocks are ordered by `order_content_blocks`, passed through
  `merge_adjacent_text_blocks`, and assembled by `page_content_blocks`. -/
def process_page (mode : ExtractionMode) (textRegions tables images : List Fragment)
    (warningCount : Nat) (threshold : ℚ) : PageProcessResult :=
  let skipText := mode == ExtractionMode.image_only
  let texts := if skipText then [] else textRegions
  let tbls := if skipText then [] else tables
  let fullText := String.intercalate "\n\n" (texts.map Fragment.payload)
  let corr :=
    if skipText then (false, (0 : ℚ))
    else
      let d := detect_page_corruption warningCount
        (build_all_text_for_check fullText (tbls.map Fragment.payload)) threshold
      (d.corrupted, d.ratioQ)
  let skipImages := (mode == ExtractionMode.image_only) ||
    (mode == ExtractionMode.text_only)
  let imgs := if skipImages then [] else images
  let ordered := merge_adjacent_text_blocks (order_content_blocks texts tbls imgs)
  { textCorrupted := corr.1
    corruptionRatioQ := corr.2
    pageImageRendered := should_include_page_image mode corr.1
    contentBlocks := page_content_blocks mode corr.1 ordered }

theorem should_include_page_image_auto (tc : Bool) :
    should_include_page_image ExtractionMode.auto tc = tc := by
  cases tc <;> rfl

theorem page_content_blocks_auto_corrupted (ordered : List ContentBlock) :
    ∀ b ∈ page_content_blocks ExtractionMode.auto true ordered,
      b.btype = BType.image := by
  intro b hb
  simp only [page_content_blocks] at hb
  rw [if_pos (by rfl)] at hb
  simp only [List.mem_map, List.mem_filter] at hb
  obtain ⟨a, ⟨_, hab⟩, rfl⟩ := hb
  simpa using hab

end Pdf4Vllm

namespace Pdf4Vllm

/-- C2: in extraction mode `auto`, a full-page image render is triggered
if and only if corruption was detected on the page, and when corruption is
detected the page's text and table content blocks are dropped entirely:
every block of the page's content-block sequence is an image block. -/
theorem auto_mode_corruption_gate (textRegions tables images : List Fragment)
    (warningCount : Nat) (threshold : ℚ) :
    ((process_page ExtractionMode.auto textRegions tables images warningCount
        threshold).pageImageRendered =
      (process_page ExtractionMode.auto textRegions tables images warningCount
        threshold).textCorrupted) ∧
      ((process_page ExtractionMode.auto textRegions tables images warningCount
          threshold).textCorrupted = true →
        ∀ b ∈ (process_page ExtractionMode.auto textRegions tables images warningCount
            threshold).contentBlocks, b.btype = BType.image) := by
  constructor
  · exact should_include_page_image_auto _
  · intro hc b hb
    have h2 : (process_page ExtractionMode.auto textRegions tables images warningCount
        threshold).contentBlocks =
        page_content_blocks ExtractionMode.auto
          (process_page ExtractionMode.auto textRegions tables images warningCount
            threshold).textCorrupted
          (merge_adjacent_text_blocks (order_content_blocks textRegions tables images)) := rfl
    rw [h2, hc] at hb
    exact page_content_blocks_auto_corrupted _ b hb

/-- Witness for C2 at a concrete corrupted page: 5 pdfminer warnings force
corruption, the page image is rendered, and only the image block remains. -/
theorem auto_mode_corruption_gate_witness :
    ((process_page ExtractionMode.auto [⟨1, "txt"⟩] [] [⟨2, "img"⟩] 5 0).pageImageRendered =
      (process_page ExtractionMode.auto [⟨1, "txt"⟩] [] [⟨2, "img"⟩] 5 0).textCorrupted) ∧
      ∀ b ∈ (process_page ExtractionMode.auto [⟨1, "txt"⟩] [] [⟨2, "img"⟩] 5
          0).contentBlocks, b.btype = BType.image :=
  ⟨(auto_mode_corruption_gate [⟨1, "txt"⟩] [] [⟨2, "img"⟩] 5 0).1,
   (auto_mode_corruption_gate [⟨1, "txt"⟩] [] [⟨2, "img"⟩] 5 0).2 (by decide)⟩

end Pdf4Vllm

namespace Pdf4Vllm

/-! ## Request validation (`src/validators.py`) -/

/-- A `SuggestedRange` (`src/schemas.py`): a page span with its estimated
image count and page count. -/
structure SuggestedRange where
  start_page : Nat
  end_page : Nat
  estimated_images : Nat
  page_count : Nat
deriving DecidableEq, Repr

/-- The inner page walk of `calculate_suggested_ranges`
(`src/validators.py` lines 182-201): iterate over the 0-based page numbers
of the tentative window, accumulating image counts.  `imagesOnPage p` is
`len(doc.pages[p].images)`.  Stops at the document's end; if adding a page
would exceed `maxImages` it is still included when it is the window's
first page (forward progress), otherwise the range stops before it.
Returns `(current_images, final_end)`. -/
def scanLoop (imagesOnPage : Nat → Nat) (totalDocPages maxImages currentStart : Nat) :
    List Nat → Nat → Nat → Nat × Nat
  | [], images, finalEnd => (images, finalEnd)
  | p :: rest, images, finalEnd =>
    if totalDocPages ≤ p then (images, finalEnd)
    else if maxImages < images + imagesOnPage p then
      (if p = currentStart - 1 then (images + imagesOnPage p, p + 1) else (images, p))
    else scanLoop imagesOnPage totalDocPages maxImages currentStart rest
      (images + imagesOnPage p) (p + 1)

theorem scanLoop_finalEnd_lower (imagesOnPage : Nat → Nat)
    (totalDocPages maxImages currentStart : Nat) :
    ∀ (l : List Nat) (images finalEnd : Nat), currentStart ≤ finalEnd →
      (∀ p ∈ l, currentStart ≤ p + 1) →
      currentStart ≤
        (scanLoop imagesOnPage totalDocPages maxImages currentStart l images finalEnd).2 := by
  intro l
  induction l with
  | nil => intro images finalEnd hfe _; exact hfe
  | cons p rest ih =>
    intro images finalEnd hfe hl
    simp only [scanLoop]
    split
    · exact hfe
    · split
      · split
        · next hp =>
          have := hl p (List.mem_cons_self p rest)
          omega
        · next hp =>
          have := hl p (List.mem_cons_self p rest)
          omega
      · exact ih _ _ (le_trans (hl p (List.mem_cons_self p rest)) (le_refl _))
          (fun q hq => hl q (List.mem_cons_of_mem p hq))

theorem scanLoop_finalEnd_upper (imagesOnPage : Nat → Nat)
    (totalDocPages maxImages currentStart : Nat) :
    ∀ (l : List Nat) (images finalEnd B : Nat), finalEnd ≤ B →
      (∀ p ∈ l, p + 1 ≤ B) →
      (scanLoop imagesOnPage totalDocPages maxImages currentStart l images finalEnd).2 ≤ B := by
  intro l
  induction l with
  | nil => intro images finalEnd B hfe _; exact hfe
  | cons p rest ih =>
    intro images finalEnd B hfe hl
    simp only [scanLoop]
    split
    · exact hfe
    · split
      · split
        · exact hl p (List.mem_cons_self p rest)
        · have := hl p (List.mem_cons_self p rest)
          omega
      · exact ih _ _ _ (hl p (List.mem_cons_self p rest))
          (fun q hq => hl q (List.mem_cons_of_mem p hq))

theorem scanLoop_images_bound (imagesOnPage : Nat → Nat)
    (totalDocPages maxImages currentStart : Nat) (hcs : 1 ≤ currentStart) :
    ∀ (l : List Nat) (images finalEnd : Nat), images ≤ maxImages →
      (scanLoop imagesOnPage totalDocPages maxImages currentStart l images finalEnd).1 ≤
          maxImages ∨
        (scanLoop imagesOnPage totalDocPages maxImages currentStart l images finalEnd).2 =
          currentStart := by
  intro l
  induction l with
  | nil => intro images finalEnd him; exact Or.inl him
  | cons p rest ih =>
    intro images finalEnd him
    simp only [scanLoop]
    split
    · exact Or.inl him
    · split
      · split
        · next hp =>
          right
          simp only
          omega
        · exact Or.inl him
      · next hlt =>
        exact ih _ _ (by omega)

end Pdf4Vllm

namespace Pdf4Vllm

/-- One window scan of `calculate_suggested_ranges`: walk the 0-based page
numbers `current_start - 1 .. current_end - 1` (with
`current_end = min(current_start + max_pages - 1, end_page)`), starting
from zero images and `final_end = current_start`. -/
def scanOutcome (imagesOnPage : Nat → Nat)
    (totalDocPages maxPages maxImages endPage currentStart : Nat) : Nat × Nat :=
  scanLoop imagesOnPage totalDocPages maxImages currentStart
    (List.range' (currentStart - 1)
      (min (currentStart + maxPages - 1) endPage + 1 - currentStart))
    0 currentStart

theorem scanOutcome_lower (imagesOnPage : Nat → Nat)
    (totalDocPages maxPages maxImages endPage currentStart : Nat) :
    currentStart ≤
      (scanOutcome imagesOnPage totalDocPages maxPages maxImages endPage currentStart).2 := by
  apply scanLoop_finalEnd_lower _ _ _ _ _ _ _ (le_refl _)
  intro p hp
  have := List.mem_range'_1.mp hp
  omega

theorem scanOutcome_upper (imagesOnPage : Nat → Nat)
    (totalDocPages maxPages maxImages endPage currentStart : Nat)
    (hcs : 1 ≤ currentStart) (hep : currentStart ≤ endPage) (hmp : 1 ≤ maxPages) :
    (scanOutcome imagesOnPage totalDocPages maxPages maxImages endPage currentStart).2 ≤
      min (currentStart + maxPages - 1) endPage := by
  apply scanLoop_finalEnd_upper
  · have h1 : currentStart ≤ currentStart + maxPages - 1 := by omega
    exact le_min h1 hep
  · intro p hp
    have := List.mem_range'_1.mp hp
    omega

theorem scanOutcome_images (imagesOnPage : Nat → Nat)
    (totalDocPages maxPages maxImages endPage currentStart : Nat)
    (hcs : 1 ≤ currentStart) :
    (scanOutcome imagesOnPage totalDocPages maxPages maxImages endPage currentStart).1 ≤
        maxImages ∨
      (scanOutcome imagesOnPage totalDocPages maxPages maxImages endPage currentStart).2 =
        currentStart :=
  scanLoop_images_bound imagesOnPage totalDocPages maxImages currentStart hcs _ _ _
    (Nat.zero_le _)

/-- The outer `while` loop of `calculate_suggested_ranges`
(`src/validators.py` lines 175-213): while `current_start <= end_page` and
fewer than `max_suggested_ranges` ranges were produced, scan the next
window, append the resulting range when `final_end >= current_start`, and
advance `current_start` to `final_end + 1`.  Termination: `final_end` never
falls below `current_start`, so `current_start` strictly increases. -/
def rangesLoop (imagesOnPage : Nat → Nat)
    (totalDocPages maxPages maxImages endPage maxSuggested : Nat)
    (currentStart : Nat) (acc : List SuggestedRange) : List SuggestedRange :=
  if h : currentStart ≤ endPage ∧ acc.length < maxSuggested then
    rangesLoop imagesOnPage totalDocPages maxPages maxImages endPage maxSuggested
      ((scanOutcome imagesOnPage totalDocPages maxPages maxImages endPage currentStart).2 + 1)
      (if currentStart ≤
          (scanOutcome imagesOnPage totalDocPages maxPages maxImages endPage currentStart).2 then
        acc ++ [⟨currentStart,
          (scanOutcome imagesOnPage totalDocPages maxPages maxImages endPage currentStart).2,
          (scanOutcome imagesOnPage totalDocPages maxPages maxImages endPage currentStart).1,
          (scanOutcome imagesOnPage totalDocPages maxPages maxImages endPage currentStart).2 + 1
            - currentStart⟩]
      else acc)
  else acc
termination_by endPage + 1 - currentStart
decreasing_by
  have hlow := scanOutcome_lower imagesOnPage totalDocPages maxPages maxImages endPage
    currentStart
  omega

/-- `calculate_suggested_ranges` (`src/validators.py` lines 146-215):
greedy, image-density-aware splitting of `[startPage, endPage]` into up to
`maxSuggested` ranges. -/
def calculate_suggested_ranges (imagesOnPage : Nat → Nat)
    (totalDocPages startPage endPage maxPages maxImages maxSuggested : Nat) :
    List SuggestedRange :=
  rangesLoop imagesOnPage totalDocPages maxPages maxImages endPage maxSuggested startPage []

/-- The emitted ranges are contiguous and non-overlapping starting at `s`:
each range starts where demanded, spans at least one page, and the next
range starts one past its end. -/
inductive ContiguousFrom : Nat → List SuggestedRange → Prop where
  | nil (s : Nat) : ContiguousFrom s []
  | cons (s : Nat) (r : SuggestedRange) (rest : List SuggestedRange) :
      r.start_page = s → s ≤ r.end_page → ContiguousFrom (r.end_page + 1) rest →
      ContiguousFrom s (r :: rest)

/-- The per-range limit invariant: consistent page count, page count within
`maxPages`, and image count within `maxImages` except for the degenerate
single-page overflow case. -/
def RangeOK (maxPages maxImages : Nat) (r : SuggestedRange) : Prop :=
  r.page_count = r.end_page + 1 - r.start_page ∧
  r.page_count ≤ maxPages ∧
  (r.estimated_images ≤ maxImages ∨ r.page_count = 1)

theorem rangesLoop_spec (imagesOnPage : Nat → Nat)
    (totalDocPages maxPages maxImages endPage maxSuggested : Nat) (hmp : 1 ≤ maxPages) :
    ∀ (fuel currentStart : Nat) (acc : List SuggestedRange),
      endPage + 1 - currentStart ≤ fuel → 1 ≤ currentStart →
      ∃ suffix,
        rangesLoop imagesOnPage totalDocPages maxPages maxImages endPage maxSuggested
            currentStart acc = acc ++ suffix ∧
          ContiguousFrom currentStart suffix ∧
          (∀ r ∈ suffix, RangeOK maxPages maxImages r) ∧
          (currentStart ≤ endPage → acc.length < maxSuggested → suffix ≠ []) := by
  intro fuel
  induction fuel with
  | zero =>
    intro currentStart acc hfuel hcs
    refine ⟨[], ?_, ContiguousFrom.nil _, by simp, ?_⟩
    · rw [rangesLoop]
      rw [dif_neg (by omega)]
      simp
    · intro hle _
      omega
  | succ n ih =>
    intro currentStart acc hfuel hcs
    by_cases hcond : currentStart ≤ endPage ∧ acc.length < maxSuggested
    · have hlow := scanOutcome_lower imagesOnPage totalDocPages maxPages maxImages endPage
        currentStart
      have hupp := scanOutcome_upper imagesOnPage totalDocPages maxPages maxImages endPage
        currentStart hcs hcond.1 hmp
      have himg := scanOutcome_images imagesOnPage totalDocPages maxPages maxImages endPage
        currentStart hcs
      set sc := scanOutcome imagesOnPage totalDocPages maxPages maxImages endPage
        currentStart with hsc
      obtain ⟨suffix, heq, hcont, hok, -⟩ :=
        ih (sc.2 + 1)
          (acc ++ [⟨currentStart, sc.2, sc.1, sc.2 + 1 - currentStart⟩])
          (by omega) (by omega)
      refine ⟨⟨currentStart, sc.2, sc.1, sc.2 + 1 - currentStart⟩ :: suffix, ?_, ?_, ?_, ?_⟩
      · rw [rangesLoop]
        rw [dif_pos hcond, if_pos hlow, ← hsc, heq]
        simp
      · exact ContiguousFrom.cons _ _ _ rfl hlow hcont
      · intro r hr
        rcases List.mem_cons.mp hr with hr | hr
        · subst hr
          refine ⟨rfl, ?_, ?_⟩
          · simp only
            have := min_le_left (currentStart + maxPages - 1) endPage
            omega
          · rcases himg with h | h
            · exact Or.inl h
            · right
              simp only
              omega
        · exact hok r hr
      · intro _ _
        exact List.cons_ne_nil _ _
    · refine ⟨[], ?_, ContiguousFrom.nil _, by simp, ?_⟩
      · rw [rangesLoop]
        rw [dif_neg hcond]
        simp
      · intro h1 h2
        exact absurd ⟨h1, h2⟩ hcond

end Pdf4Vllm

namespace Pdf4Vllm

/-- C1: for every document, `startPage ≤ endPage` (1-indexed), page limit
`maxPages ≥ 1` and any image limit, `calculate_suggested_ranges` terminates
(it is a total function; `current_start` strictly increases) and emits a
sequence of ranges whose page spans are contiguous and non-overlapping
with the first range starting at `startPage`, in which every range has a
consistent `page_count ≤ maxPages` and satisfies
`estimated_images ≤ maxImages` except for degenerate one-page ranges
(`page_count = 1`), the unavoidable single-page overflow case.  When at
least one suggestion is allowed, at least one range is emitted. -/
theorem suggested_ranges_spec (imagesOnPage : Nat → Nat)
    (totalDocPages startPage endPage maxPages maxImages maxSuggested : Nat)
    (h1 : 1 ≤ startPage) (h2 : startPage ≤ endPage) (hmp : 1 ≤ maxPages) :
    ContiguousFrom startPage
        (calculate_suggested_ranges imagesOnPage totalDocPages startPage endPage maxPages
          maxImages maxSuggested) ∧
      (∀ r ∈ calculate_suggested_ranges imagesOnPage totalDocPages startPage endPage maxPages
          maxImages maxSuggested, RangeOK maxPages maxImages r) ∧
      (1 ≤ maxSuggested →
        calculate_suggested_ranges imagesOnPage totalDocPages startPage endPage maxPages
          maxImages maxSuggested ≠ []) := by
  obtain ⟨suffix, heq, hcont, hok, hne⟩ :=
    rangesLoop_spec imagesOnPage totalDocPages maxPages maxImages endPage maxSuggested hmp
      (endPage + 1 - startPage) startPage [] (le_refl _) h1
  have hres : calculate_suggested_ranges imagesOnPage totalDocPages startPage endPage maxPages
      maxImages maxSuggested = suffix := by
    rw [calculate_suggested_ranges, heq]
    simp
  rw [hres]
  exact ⟨hcont, hok, fun hms => hne h2 (by simpa using hms)⟩

/-- Witness for C1 on a concrete three-page request with a page limit of 2
and an image-dense first page. -/
theorem suggested_ranges_spec_witness :
    ContiguousFrom 1 (calculate_suggested_ranges (fun p => if p = 0 then 9 else 1) 10 1 3 2 5 5) ∧
      (∀ r ∈ calculate_suggested_ranges (fun p => if p = 0 then 9 else 1) 10 1 3 2 5 5,
        RangeOK 2 5 r) ∧
      calculate_suggested_ranges (fun p => if p = 0 then 9 else 1) 10 1 3 2 5 5 ≠ [] :=
  ⟨(suggested_ranges_spec (fun p => if p = 0 then 9 else 1) 10 1 3 2 5 5
      (by decide) (by decide) (by decide)).1,
   (suggested_ranges_spec (fun p => if p = 0 then 9 else 1) 10 1 3 2 5 5
      (by decide) (by decide) (by decide)).2.1,
   (suggested_ranges_spec (fun p => if p = 0 then 9 else 1) 10 1 3 2 5 5
      (by decide) (by decide) (by decide)).2.2 (by decide)⟩

end Pdf4Vllm

namespace Pdf4Vllm

/-- Oracle model of an opened PDF document: its page count and, per
0-based page index, the outputs of the extraction collaborators (pikepdf
image counts, pdfplumber text regions / table markdowns / embedded-image
placeholders, and the pdfminer diagnostic warning count). -/
structure DocModel where
  totalPages : Nat
  imagesOnPage : Nat → Nat
  textRegions : Nat → List Fragment
  tableFragments : Nat → List Fragment
  imageFragments : Nat → List Fragment
  pdfminerWarnings : Nat → Nat

/-- The outcome of `validate_pdf_read_request` (`src/validators.py`):
valid, or one of the three failure kinds with their payloads. -/
inductive ValidationOutcome where
  | valid
  | invalidPageRange (totalPages : Nat)
  | pageLimitExceeded (totalPages : Nat) (suggested : List SuggestedRange)
  | imageLimitExceeded (totalPages totalImages : Nat) (suggested : List SuggestedRange)
deriving DecidableEq, Repr

/-- The silent end-page clamp (`src/validators.py` line 64):
`actual_end = min(end_page or total_pages, total_pages)`. -/
def actualEndOf (totalPages : Nat) (endPage : Option Nat) : Nat :=
  min (endPage.getD totalPages) totalPages

/-- `page_count = actual_end - start_page + 1` (`src/validators.py`
line 65); on every path that reaches it the guards guarantee
`start_page ≤ actual_end`, so `Nat` subtraction agrees with Python. -/
def pageCountOf (totalPages startPage : Nat) (endPage : Option Nat) : Nat :=
  actualEndOf totalPages endPage - startPage + 1

/-- The image pre-count over the requested span (`src/validators.py`
lines 90-95): walk 0-based pages `start_page - 1 .. actual_end - 1`,
stopping at the document's end, summing per-page image counts. -/
def countImagesInRange (imagesOnPage : Nat → Nat)
    (totalPages startPage actualEnd : Nat) : Nat :=
  ((List.range' (startPage - 1) (actualEnd + 1 - startPage)).takeWhile
    (fun p => p < totalPages)).foldl (fun a p => a + imagesOnPage p) 0

/-- The explicit-end-page guard (`src/validators.py` line 49):
`end_page is not None and end_page < start_page`. -/
def endBeforeStart (startPage : Nat) (endPage : Option Nat) : Bool :=
  match endPage with
  | some e => decide (e < startPage)
  | none => false

/-- `validate_pdf_read_request` (`src/validators.py` lines 11-118) on the
document oracle: reject a start page beyond the document or an explicit
end page below the start page as `INVALID_PAGE_RANGE`; silently clamp the
effective end; reject `page_count > maxPages` as `PAGE_LIMIT_EXCEEDED` and
an image pre-count above `maxImages` as `IMAGE_LIMIT_EXCEEDED`, both with
suggested ranges; otherwise accept.  (The I/O failure branches — missing
file, permission, unparsable PDF — are exception paths outside this pure
model.) -/
def validate_pdf_read_request (doc : DocModel) (startPage : Nat) (endPage : Option Nat)
    (maxPages maxImages maxSuggested : Nat) : ValidationOutcome :=
  if doc.totalPages < startPage then ValidationOutcome.invalidPageRange doc.totalPages
  else if endBeforeStart startPage endPage then
    ValidationOutcome.invalidPageRange doc.totalPages
  else if maxPages < pageCountOf doc.totalPages startPage endPage then
    ValidationOutcome.pageLimitExceeded doc.totalPages
      (calculate_suggested_ranges doc.imagesOnPage doc.totalPages startPage
        (actualEndOf doc.totalPages endPage) maxPages maxImages maxSuggested)
  else if maxImages < countImagesInRange doc.imagesOnPage doc.totalPages startPage
      (actualEndOf doc.totalPages endPage) then
    ValidationOutcome.imageLimitExceeded doc.totalPages
      (countImagesInRange doc.imagesOnPage doc.totalPages startPage
        (actualEndOf doc.totalPages endPage))
      (calculate_suggested_ranges doc.imagesOnPage doc.totalPages startPage
        (actualEndOf doc.totalPages endPage) maxPages maxImages maxSuggested)
  else ValidationOutcome.valid

/-- The error kinds surfaced by `read_pdf_handler` (`src/schemas.py`,
`src/pdf_tools.py`). -/
inductive ErrKind where
  | FILE_NOT_FOUND
  | PERMISSION_DENIED
  | INVALID_PAGE_RANGE
  | PAGE_LIMIT_EXCEEDED
  | IMAGE_LIMIT_EXCEEDED
deriving DecidableEq, Repr

/-- The error kind the handler reports for a failed validation outcome
(`error=validation.error`, `src/pdf_tools.py` lines 251-260).  The `valid`
case is never consulted — the handler matches it separately. -/
def errKindOf : ValidationOutcome → ErrKind
  | ValidationOutcome.valid => ErrKind.INVALID_PAGE_RANGE
  | ValidationOutcome.invalidPageRange _ => ErrKind.INVALID_PAGE_RANGE
  | ValidationOutcome.pageLimitExceeded _ _ => ErrKind.PAGE_LIMIT_EXCEEDED
  | ValidationOutcome.imageLimitExceeded _ _ _ => ErrKind.IMAGE_LIMIT_EXCEEDED

/-- The handler's response: an error kind, or the processed pages. -/
inductive ReadResult where
  | failure (kind : ErrKind)
  | success (pages : List PageProcessResult)
deriving DecidableEq, Repr

/-- `validate_path_security` (`src/pdf_tools.py` lines 40-59) on resolved
paths modelled as component lists (symlinks and `..` already eliminated,
as `Path.resolve()` does): the path is safe iff the resolved base is a
prefix of the resolved path (`Path.is_relative_to`). -/
def validate_path_security (resolvedPath resolvedBase : List String) : Bool :=
  resolvedPath.take resolvedBase.length == resolvedBase

/-- Observable outcome of one `read_pdf_handler` call: the response,
whether `validate_pdf_read_request` was invoked, and how many pages
entered the extraction loop (each such page triggers text/table/image
extraction primitives). -/
structure HandlerOutcome where
  result : ReadResult
  validationRan : Bool
  pagesExtracted : Nat
deriving DecidableEq, Repr

/-- `read_pdf_handler` (`src/pdf_tools.py` lines 183-628), control flow on
the oracles: missing file → `FILE_NOT_FOUND`; resolved path outside the
working directory → `PERMISSION_DENIED` (before validation); unreadable
file → `PERMISSION_DENIED`; then limit validation, whose failure is
returned as-is with no page processed; only a valid request enters the
per-page extraction loop over the clamped range. -/
def read_pdf_handler (doc : DocModel) (fileExists readable : Bool)
    (resolvedPath cwd : List String) (startPage : Nat) (endPage : Option Nat)
    (mode : ExtractionMode) (maxPages maxImages maxSuggested : Nat) (threshold : ℚ) :
    HandlerOutcome :=
  if !fileExists then ⟨ReadResult.failure ErrKind.FILE_NOT_FOUND, false, 0⟩
  else if !validate_path_security resolvedPath cwd then
    ⟨ReadResult.failure ErrKind.PERMISSION_DENIED, false, 0⟩
  else if !readable then ⟨ReadResult.failure ErrKind.PERMISSION_DENIED, false, 0⟩
  else
    match validate_pdf_read_request doc startPage endPage maxPages maxImages maxSuggested with
    | ValidationOutcome.valid =>
      let pageNums := List.range' startPage
        (min (endPage.getD doc.totalPages) doc.totalPages + 1 - startPage)
      ⟨ReadResult.success (pageNums.map (fun p =>
          process_page mode (doc.textRegions (p - 1)) (doc.tableFragments (p - 1))
            (doc.imageFragments (p - 1)) (doc.pdfminerWarnings (p - 1)) threshold)),
        true, pageNums.length⟩
    | v => ⟨ReadResult.failure (errKindOf v), true, 0⟩

end Pdf4Vllm

namespace Pdf4Vllm

/-- C8: whenever `startPage` is within the document and the explicit end
page (if any) is not below it, the validator never raises a range error —
it silently clamps the effective end page to
`min(endPage or totalPages, totalPages)` and computes
`pageCount = effectiveEnd - startPage + 1`.  In particular, for a 15-page
document with `startPage = 10`, `endPage = 19`, the effective end is 15
and the page count is 6. -/
theorem validator_clamps_end (doc : DocModel) (startPage : Nat) (endPage : Option Nat)
    (maxPages maxImages maxSuggested : Nat)
    (h1 : startPage ≤ doc.totalPages)
    (h2 : ∀ e, endPage = some e → startPage ≤ e) :
    (∀ t, validate_pdf_read_request doc startPage endPage maxPages maxImages maxSuggested ≠
        ValidationOutcome.invalidPageRange t) ∧
      pageCountOf doc.totalPages startPage endPage =
        min (endPage.getD doc.totalPages) doc.totalPages - startPage + 1 ∧
      actualEndOf 15 (some 19) = 15 ∧
      pageCountOf 15 10 (some 19) = 6 := by
  refine ⟨?_, rfl, by decide, by decide⟩
  intro t ht
  simp only [validate_pdf_read_request] at ht
  rw [if_neg (by omega)] at ht
  have hm : endBeforeStart startPage endPage = false := by
    unfold endBeforeStart
    cases endPage with
    | none => rfl
    | some e =>
      simp only [decide_eq_false_iff_not]
      have := h2 e rfl
      omega
  rw [hm] at ht
  simp only [Bool.false_eq_true, if_false] at ht
  split_ifs at ht

/-- The 15-page document of the clamping scenario. -/
def doc15 : DocModel := ⟨15, fun _ => 0, fun _ => [], fun _ => [], fun _ => [], fun _ => 0⟩

/-- Witness for C8: the scenario document with `startPage = 10`,
`endPage = 19`. -/
theorem validator_clamps_end_witness :
    (∀ t, validate_pdf_read_request doc15 10 (some 19) 10 50 5 ≠
        ValidationOutcome.invalidPageRange t) ∧
      pageCountOf doc15.totalPages 10 (some 19) =
        min ((some 19 : Option Nat).getD doc15.totalPages) doc15.totalPages - 10 + 1 ∧
      actualEndOf 15 (some 19) = 15 ∧
      pageCountOf 15 10 (some 19) = 6 :=
  validator_clamps_end doc15 10 (some 19) 10 50 5 (by decide)
    (fun e he => by cases he; decide)

/-- C4: a request the validator rejects — in particular one whose clamped
page count exceeds `maxPages` — is answered with the validation error and
zero pages ever enter the extraction loop: no page text, table or image
extraction happens for it. -/
theorem validation_short_circuit (doc : DocModel) (resolvedPath cwd : List String)
    (startPage : Nat) (endPage : Option Nat) (mode : ExtractionMode)
    (maxPages maxImages maxSuggested : Nat) (threshold : ℚ)
    (hsec : validate_path_security resolvedPath cwd = true) :
    (maxPages < pageCountOf doc.totalPages startPage endPage →
      validate_pdf_read_request doc startPage endPage maxPages maxImages maxSuggested ≠
        ValidationOutcome.valid) ∧
      (validate_pdf_read_request doc startPage endPage maxPages maxImages maxSuggested ≠
          ValidationOutcome.valid →
        read_pdf_handler doc true true resolvedPath cwd startPage endPage mode maxPages
            maxImages maxSuggested threshold =
          ⟨ReadResult.failure (errKindOf (validate_pdf_read_request doc startPage endPage
              maxPages maxImages maxSuggested)), true, 0⟩) := by
  constructor
  · intro hpc hvalid
    simp only [validate_pdf_read_request] at hvalid
    split_ifs at hvalid
  · intro hvalid
    cases hv : validate_pdf_read_request doc startPage endPage maxPages maxImages
        maxSuggested with
    | valid => exact absurd hv hvalid
    | invalidPageRange t => simp [read_pdf_handler, hsec, hv, errKindOf]
    | pageLimitExceeded t sg => simp [read_pdf_handler, hsec, hv, errKindOf]
    | imageLimitExceeded t ti sg => simp [read_pdf_handler, hsec, hv, errKindOf]

/-- A 3-page document for the short-circuit witness. -/
def doc3 : DocModel := ⟨3, fun _ => 0, fun _ => [], fun _ => [], fun _ => [], fun _ => 0⟩

/-- Witness for C4: a request for 3 pages against `maxPages = 1` is
rejected with the validation error and zero extracted pages. -/
theorem validation_short_circuit_witness :
    read_pdf_handler doc3 true true ["ws", "doc.pdf"] ["ws"] 1 (some 3)
        ExtractionMode.auto 1 50 5 0 =
      ⟨ReadResult.failure (errKindOf (validate_pdf_read_request doc3 1 (some 3) 1 50 5)),
        true, 0⟩ :=
  (validation_short_circuit doc3 ["ws", "doc.pdf"] ["ws"] 1 (some 3) ExtractionMode.auto
      1 50 5 0 (by decide)).2
    (by
      have hpl : validate_pdf_read_request doc3 1 (some 3) 1 50 5 =
          ValidationOutcome.pageLimitExceeded 3
            (calculate_suggested_ranges (fun _ => 0) 3 1 3 1 50 5) := rfl
      rw [hpl]
      exact fun h => ValidationOutcome.noConfusion h)

/-- C9: when the requested file exists but its resolved path lies outside
the resolved current working directory (its component list does not extend
the working directory's), `read_pdf_handler` answers `PERMISSION_DENIED`
without running validation and without extracting any page — the
path-traversal guard runs before everything else that touches the
document. -/
theorem path_security_guard (doc : DocModel) (readable : Bool)
    (resolvedPath cwd : List String) (startPage : Nat) (endPage : Option Nat)
    (mode : ExtractionMode) (maxPages maxImages maxSuggested : Nat) (threshold : ℚ)
    (hout : validate_path_security resolvedPath cwd = false) :
    read_pdf_handler doc true readable resolvedPath cwd startPage endPage mode maxPages
        maxImages maxSuggested threshold =
      ⟨ReadResult.failure ErrKind.PERMISSION_DENIED, false, 0⟩ := by
  simp [read_pdf_handler, hout]

/-- Witness for C9: a path resolved under `/etc` against a working
directory `/home`. -/
theorem path_security_guard_witness :
    read_pdf_handler doc3 true true ["etc", "x.pdf"] ["home"] 1 none ExtractionMode.auto
        10 50 5 0 =
      ⟨ReadResult.failure ErrKind.PERMISSION_DENIED, false, 0⟩ :=
  path_security_guard doc3 true ["etc", "x.pdf"] ["home"] 1 none ExtractionMode.auto
    10 50 5 0 (by decide)

end Pdf4Vllm
